import Mathlib

/-!
Verification of the replicated-log façade (`src/log/log.cpp`): the
`LogProcess` / `LogReaderProcess` / `LogWriterProcess` actors and the
client-facing `Log::Reader` / `Log::Writer` wrappers.

Modelling conventions:
* Machine integers (`uint64_t`, positions) are `Nat`; the reader's running
  position counter is incremented modulo `2 ^ 64` exactly where the C++
  counter can wrap.
* A libprocess `Future<T>` is modelled by its observable state
  (`FutureState`): pending, ready with a value, failed with a message, or
  discarded.
* Asynchronous collaborator calls (coordinator, replica, recovery) are
  modelled by passing the collaborator's eventual answer as an explicit
  oracle argument; the actor functions are then pure state transformers.
* Protobuf optional fields are modelled by their `has_` bit together with
  the stored value (the value is only read under the `has_` guard, exactly
  as in the C++).
* `Shared<Replica>` / `Shared<Network>` handles are opaque `Nat`
  identifiers: the façade only ever passes them around.
-/

namespace MesosLog

/-- `2 ^ 64`, the modulus of `uint64_t` arithmetic. -/
def UINT64 : Nat := 2 ^ 64

/-! ## Data model: actions and entries -/

/-- `Action::Type` from the log protobuf: NOP, APPEND or TRUNCATE. -/
inductive ActionType
| NOP
| APPEND
| TRUNCATE
deriving DecidableEq, Repr

/-- One stored action, as read by `LogReaderProcess::__read`:
`position()`, `has_performed()`, `has_learned()`/`learned()`,
`has_type()`/`type()` and `append().bytes()`.  The `has` fields model
protobuf field presence; `learned` and `type_` are only consulted under
their `has` guard, as in the C++. -/
structure Action where
  position : Nat
  hasPerformed : Bool
  hasLearned : Bool
  learned : Bool
  hasType : Bool
  type_ : ActionType
  appendBytes : String
deriving DecidableEq, Repr

/-- `Log::Entry`: a position and the appended bytes. -/
structure Entry where
  position : Nat
  data : String
deriving DecidableEq, Repr

/-- Outcome of `LogReaderProcess::__read`: a ready list of entries, a
failed future with a message, or the `CHECK(action.has_type())` abort. -/
inductive ReadResult
| entries (es : List Entry)
| failure (msg : String)
| checkFailed
deriving DecidableEq, Repr

/-- The loop body of `LogReaderProcess::__read`: walk the actions with the
`uint64_t` counter `position`, failing on pending or out-of-place actions,
and keep the `APPEND` actions as entries.  The counter is incremented
modulo `2 ^ 64` like the C++ `position++`. -/
def readLoop (position : Nat) : List Action → ReadResult
| [] => .entries []
| a :: rest =>
  if !a.hasPerformed || !a.hasLearned || !a.learned then
    .failure "Bad read range (includes pending entries)"
  else if a.position ≠ position then
    .failure "Bad read range (includes missing entries)"
  else if !a.hasType then
    .checkFailed
  else
    match readLoop ((position + 1) % UINT64) rest with
    | .entries es =>
        .entries (if a.type_ = .APPEND then ⟨a.position, a.appendBytes⟩ :: es else es)
    | r => r

/-- `LogReaderProcess::__read(from, to, actions)`: validates the action
list against the requested range `[fromPos, toPos]` and translates the
`APPEND` actions into entries.  (`toPos` is not consulted by the body;
the walk starts at `from.value`.) -/
def LogReaderProcess.__read (fromPos toPos : Nat) (actions : List Action) : ReadResult :=
  readLoop fromPos actions

/-! ### Spec-side description of the read walk (for the refinement in C2).
These three definitions follow the words of the specification's read
algorithm and of claim C2; the theorems compare them with
`LogReaderProcess.__read`, which is translated from the source. -/

/-- Spec: an action is visible when it has the `performed` field, has the
`learned` field, and is learned. -/
def actionOk (a : Action) : Bool :=
  a.hasPerformed && a.hasLearned && a.learned

/-- Spec: the walk succeeds iff every action is visible and sits exactly at
the expected counter, which starts at `pos` and increments (mod `2 ^ 64`). -/
def specValid (pos : Nat) : List Action → Bool
| [] => true
| a :: rest => actionOk a && (a.position == pos) && specValid ((pos + 1) % UINT64) rest

/-- Spec: the entries of a successful read are exactly the `APPEND`-typed
actions, in order, as `(position, bytes)` pairs. -/
def specEntries (actions : List Action) : List Entry :=
  (actions.filter (fun a => a.type_ == ActionType.APPEND)).map
    (fun a => ⟨a.position, a.appendBytes⟩)

/-- Spec: the message of the first failure met by the walk, if any:
"pending entries" when the action is not visible, else "missing entries"
when it is out of place. -/
def specFailure (pos : Nat) : List Action → Option String
| [] => none
| a :: rest =>
  if !(actionOk a) then some "Bad read range (includes pending entries)"
  else if a.position ≠ pos then some "Bad read range (includes missing entries)"
  else specFailure ((pos + 1) % UINT64) rest

/-! ## Futures, promises and settlements -/

/-- The observable state of a libprocess `Future<α>`. -/
inductive FutureState (α : Type)
| pending
| ready (a : α)
| failed (msg : String)
| discarded
deriving DecidableEq, Repr

/-- How a queued `Promise` gets settled when its gate transitions:
`promise->set(r)` or `promise->fail(msg)`.  The value type is the opaque
replica handle for `LogProcess` promises and `Nothing` (unit) for the
reader/writer gate promises, so `Nat` covers both. -/
inductive Settlement
| fulfilled (r : Nat)
| failedWith (msg : String)
deriving DecidableEq, Repr

/-! ## LogProcess: recovery registration, completion and finalize -/

/-- The recovery-relevant state of `LogProcess`: the current (shared)
replica handle, the `recovered` promise's future, the optional in-flight
`recovering` future (carrying the owned recovered-replica handle), and the
queue of promises enqueued by gated `recover()` calls. -/
structure LogProcess.State where
  quorum : Nat
  replica : Nat
  recoveredF : FutureState Unit
  recovering : Option (FutureState Nat)
  promises : List Unit
deriving DecidableEq, Repr

/-- Outcome of one `LogProcess::recover()` call: an immediately failed
future, the shared replica returned immediately, or a freshly enqueued
promise's (pending) future. -/
inductive RecoverOutcome
| failure (msg : String)
| replica (r : Nat)
| enqueued
deriving DecidableEq, Repr

/-- `LogProcess::recover()`: consult `recovered.future()`; if it is
discarded, failed or ready answer at once; otherwise enqueue a fresh
promise and, when no recovery is in flight yet, start the external
recovery (`log::recover(quorum, replica.own().get(), network)`), recorded
as a pending `recovering` future. -/
def LogProcess.recover (s : LogProcess.State) : RecoverOutcome × LogProcess.State :=
  match s.recoveredF with
  | .discarded => (.failure "Not expecting discarded future", s)
  | .failed m => (.failure m, s)
  | .ready _ => (.replica s.replica, s)
  | .pending =>
    let s1 := { s with promises := s.promises ++ [()] }
    if s.recovering.isNone then
      (.enqueued, { s1 with recovering := some .pending })
    else
      (.enqueued, s1)

/-- `LogProcess::_recover()`: the completion continuation, invoked with the
settled state `fut` of the `recovering` future.  On a ready owned replica
it is shared, the `recovered` signal is set and every queued promise is
fulfilled with the shared replica; otherwise the failure message (or the
unexpected-discard message) fails the signal and every queued promise.
Each call returns the new state and the settlements delivered to the
queued promises, in queue order. -/
def LogProcess._recover (s : LogProcess.State) (fut : FutureState Nat) :
    LogProcess.State × List Settlement :=
  match fut with
  | .ready r =>
    ({ s with replica := r, recoveredF := .ready (), promises := [] },
     s.promises.map (fun _ => .fulfilled r))
  | f =>
    let failure := match f with
      | .failed m => m
      | _ => "The future 'recovering' is unexpectedly discarded"
    ({ s with recoveredF := .failed failure, promises := [] },
     s.promises.map (fun _ => .failedWith failure))

/-- `LogProcess::finalize()`: discard the in-flight recovery if still
pending, and fail every queued promise with "Log is being deleted".
Returns the new state and the settlements delivered.  (The subsequent
`network.own().await()` / `replica.own().await()` calls only block; they
do not touch this state.) -/
def LogProcess.finalize (s : LogProcess.State) : LogProcess.State × List Settlement :=
  let s1 := match s.recovering with
    | some _ => { s with recovering := some (FutureState.discarded) }
    | none => s
  ({ s1 with promises := [] },
   s.promises.map (fun _ => .failedWith "Log is being deleted"))

/-! ## LogReaderProcess: the recovery gate -/

/-- The gate-relevant state of `LogReaderProcess`: the dispatched
`LogProcess::recover()` future (a shared replica handle when ready) and
the queue of gate promises. -/
structure LogReaderProcess.State where
  recovering : FutureState Nat
  promises : List Unit
deriving DecidableEq, Repr

/-- Outcome of a gate check (`recover()` in the reader/writer): proceed at
once, fail at once with a message, or wait on a freshly enqueued promise. -/
inductive GateOutcome
| proceed
| failure (msg : String)
| enqueued
deriving DecidableEq, Repr

/-- `LogReaderProcess::recover()`: ready means proceed; failed/discarded
is an immediate failure; otherwise enqueue a promise settled later by
`_recover`. -/
def LogReaderProcess.recover (s : LogReaderProcess.State) :
    GateOutcome × LogReaderProcess.State :=
  match s.recovering with
  | .ready _ => (.proceed, s)
  | .failed m => (.failure m, s)
  | .discarded => (.failure "The future 'recovering' is unexpectedly discarded", s)
  | .pending => (.enqueued, { s with promises := s.promises ++ [()] })

/-- `LogReaderProcess::_recover()`: drain the gate queue once `recovering`
has settled: fulfil every promise when ready, otherwise fail them all with
the failure (or unexpected-discard) message. -/
def LogReaderProcess._recover (s : LogReaderProcess.State) :
    LogReaderProcess.State × List Settlement :=
  match s.recovering with
  | .ready _ => ({ s with promises := [] }, s.promises.map (fun _ => .fulfilled 0))
  | .failed m => ({ s with promises := [] }, s.promises.map (fun _ => .failedWith m))
  | _ =>
    ({ s with promises := [] },
     s.promises.map (fun _ =>
       .failedWith "The future 'recovering' is unexpectedly discarded"))

/-- `LogReaderProcess::finalize()`: fail every queued gate promise with
"Log reader is being deleted" and clear the queue. -/
def LogReaderProcess.finalize (s : LogReaderProcess.State) :
    LogReaderProcess.State × List Settlement :=
  ({ s with promises := [] },
   s.promises.map (fun _ => .failedWith "Log reader is being deleted"))

/-! ## LogWriterProcess: elections, append/truncate, poisoning -/

/-- A `Coordinator`, as constructed by `LogWriterProcess::_elect`: it is
built from the quorum size, the recovered shared replica and the shared
network, and owned by the writer until the next election. -/
structure Coordinator where
  quorum : Nat
  replica : Nat
  network : Nat
deriving DecidableEq, Repr

/-- The state of `LogWriterProcess`: quorum and network captured at
construction, the dispatched `LogProcess::recover()` future, the gate
promise queue, the owned coordinator (NULL at construction) and the
poisoning `error`. -/
structure LogWriterProcess.State where
  quorum : Nat
  network : Nat
  recovering : FutureState Nat
  promises : List Unit
  coordinator : Option Coordinator
  error : Option String
deriving DecidableEq, Repr

/-- `LogWriterProcess::recover()`: same gate as the reader's. -/
def LogWriterProcess.recover (s : LogWriterProcess.State) :
    GateOutcome × LogWriterProcess.State :=
  match s.recovering with
  | .ready _ => (.proceed, s)
  | .failed m => (.failure m, s)
  | .discarded => (.failure "The future 'recovering' is unexpectedly discarded", s)
  | .pending => (.enqueued, { s with promises := s.promises ++ [()] })

/-- `LogWriterProcess::_recover()`: drain the gate queue once `recovering`
has settled, fulfilling or failing every queued promise. -/
def LogWriterProcess._recover (s : LogWriterProcess.State) :
    LogWriterProcess.State × List Settlement :=
  match s.recovering with
  | .ready _ => ({ s with promises := [] }, s.promises.map (fun _ => .fulfilled 0))
  | .failed m => ({ s with promises := [] }, s.promises.map (fun _ => .failedWith m))
  | _ =>
    ({ s with promises := [] },
     s.promises.map (fun _ =>
       .failedWith "The future 'recovering' is unexpectedly discarded"))

/-- `LogWriterProcess::finalize()`: fail every queued gate promise with
"Log writer is being deleted", clear the queue and delete the
coordinator. -/
def LogWriterProcess.finalize (s : LogWriterProcess.State) :
    LogWriterProcess.State × List Settlement :=
  ({ s with promises := [], coordinator := none },
   s.promises.map (fun _ => .failedWith "Log writer is being deleted"))

/-- `LogWriterProcess::failed(message)`: the `onFailed` continuation of
coordinator calls; it stores the failure message, poisoning the writer. -/
def LogWriterProcess.failed (s : LogWriterProcess.State) (message : String) :
    LogWriterProcess.State :=
  { s with error := some message }

/-- The eventual answer of `Coordinator::elect()`: won with the current
position, lost to a competing proposer (`None`), or a failed future. -/
inductive ElectResult
| won (v : Nat)
| lost
| failure (msg : String)
deriving DecidableEq, Repr

/-- The state of the future returned by `LogWriterProcess::elect`:
ready with `Some position` / `None`, failed with a message, still gated on
recovery, or the `CHECK_READY(recovering)` abort inside `_elect`. -/
inductive ElectOutcome
| ok (result : Option Nat)
| electFailed (msg : String)
| gated
| checkFailed
deriving DecidableEq, Repr

/-- `LogWriterProcess::__elect(result)`: wrap the coordinator's raw
optional position into an optional `Log::Position`. -/
def LogWriterProcess.__elect (result : Option Nat) : Option Nat :=
  match result with
  | none => none
  | some v => some v

/-- `LogWriterProcess::_elect()`: delete the existing coordinator (if
any), clear `error`, `CHECK_READY(recovering)`, construct a fresh
`Coordinator(quorum, recovering.get(), network)` and run its election;
a failure is stored by `failed` and fails the returned future.  The
coordinator's eventual answer is the oracle `resp`. -/
def LogWriterProcess._elect (s : LogWriterProcess.State) (resp : ElectResult) :
    ElectOutcome × LogWriterProcess.State :=
  let s0 := { s with coordinator := none, error := none }
  match s.recovering with
  | .ready replica =>
    let s1 := { s0 with coordinator := some ⟨s.quorum, replica, s.network⟩ }
    match resp with
    | .won v => (.ok (LogWriterProcess.__elect (some v)), s1)
    | .lost => (.ok (LogWriterProcess.__elect none), s1)
    | .failure m => (.electFailed m, LogWriterProcess.failed s1 m)
  | _ => (.checkFailed, s0)

/-- `LogWriterProcess::elect()`: `recover().then(defer(self(), &Self::_elect))` —
gate on recovery, then run `_elect`. -/
def LogWriterProcess.elect (s : LogWriterProcess.State) (resp : ElectResult) :
    ElectOutcome × LogWriterProcess.State :=
  match LogWriterProcess.recover s with
  | (.proceed, s1) => LogWriterProcess._elect s1 resp
  | (.failure m, s1) => (.electFailed m, s1)
  | (_, s1) => (.gated, s1)

/-- The eventual answer of a `Coordinator::append`/`truncate` call. -/
inductive CoordResult
| success (v : Nat)
| failure (msg : String)
deriving DecidableEq, Repr

/-- The state of the future returned by the writer's `append`/`truncate`:
ready with a position or failed with a message. -/
inductive WriteOutcome
| ok (position : Nat)
| fail (msg : String)
deriving DecidableEq, Repr

/-- `LogWriterProcess::append(bytes)`: fail at once when no coordinator
exists or the writer is poisoned; otherwise delegate to the coordinator
(oracle `resp`), wrapping a success into a position and storing a failure
via `failed`.  The returned `Bool` records whether the coordinator was
contacted. -/
def LogWriterProcess.append (s : LogWriterProcess.State) (bytes : String)
    (resp : CoordResult) : WriteOutcome × LogWriterProcess.State × Bool :=
  match s.coordinator with
  | none => (.fail "No election has been performed", s, false)
  | some _ =>
    match s.error with
    | some e => (.fail e, s, false)
    | none =>
      match resp with
      | .success v => (.ok v, s, true)
      | .failure m => (.fail m, LogWriterProcess.failed s m, true)

/-- `LogWriterProcess::truncate(to)`: identical guard structure to
`append`, delegating `coordinator->truncate(to.value)`. -/
def LogWriterProcess.truncate (s : LogWriterProcess.State) (toPos : Nat)
    (resp : CoordResult) : WriteOutcome × LogWriterProcess.State × Bool :=
  match s.coordinator with
  | none => (.fail "No election has been performed", s, false)
  | some _ =>
    match s.error with
    | some e => (.fail e, s, false)
    | none =>
      match resp with
      | .success v => (.ok v, s, true)
      | .failure m => (.fail m, LogWriterProcess.failed s m, true)

/-- A write request as issued by a client: `append(bytes)` or
`truncate(to)`.  Used to quantify over both operations at once. -/
inductive WriteOp
| append (bytes : String)
| truncate (toPos : Nat)
deriving DecidableEq, Repr

/-- Dispatch a `WriteOp` to the corresponding writer operation. -/
def LogWriterProcess.write (s : LogWriterProcess.State) (op : WriteOp)
    (resp : CoordResult) : WriteOutcome × LogWriterProcess.State × Bool :=
  match op with
  | .append bytes => LogWriterProcess.append s bytes resp
  | .truncate toPos => LogWriterProcess.truncate s toPos resp

/-! ## Client façade: await with timeout, and the election retry loop -/

/-- What `future.await(timeout)` followed by the state checks observes:
the await timed out, or the future is ready / failed / discarded. -/
inductive AwaitResult (α : Type)
| timedOut
| ready (a : α)
| failed (msg : String)
| discarded
deriving DecidableEq, Repr

/-- stout's `Result<T>` as the façade returns it: `ok`, the `none`
(timed-out) sentinel, or `error` with a message. -/
inductive LogResult (α : Type)
| ok (a : α)
| none
| error (msg : String)
deriving DecidableEq, Repr

/-- `Log::Reader::read(from, to, timeout)` after the dispatch: on timeout
discard the future (the returned `Bool`) and yield `None`; on a ready
failure or discard yield `Error`; on success yield the entries. -/
def Log.Reader.read (await : AwaitResult (List Entry)) : LogResult (List Entry) × Bool :=
  match await with
  | .timedOut => (.none, true)
  | .ready es => (.ok es, false)
  | .failed m => (.error m, false)
  | .discarded => (.error "Not expecting discarded future", false)

/-- `Log::Writer::append(data, timeout)` after the dispatch: same
await-with-discard-on-timeout pattern, yielding a position on success. -/
def Log.Writer.append (await : AwaitResult Nat) : LogResult Nat × Bool :=
  match await with
  | .timedOut => (.none, true)
  | .ready p => (.ok p, false)
  | .failed m => (.error m, false)
  | .discarded => (.error "Not expecting discarded future", false)

/-- `Log::Writer::truncate(to, timeout)` after the dispatch: identical to
`append`'s pattern. -/
def Log.Writer.truncate (await : AwaitResult Nat) : LogResult Nat × Bool :=
  match await with
  | .timedOut => (.none, true)
  | .ready p => (.ok p, false)
  | .failed m => (.error m, false)
  | .discarded => (.error "Not expecting discarded future", false)

/-- How the `Log::Writer` constructor's election loop ends. -/
inductive ElectLoopOutcome
| elected (pos : Nat)
| abandoned (msg : String)
| exhausted
| pendingMore
deriving DecidableEq, Repr

/-- The election loop of the `Log::Writer` constructor, driven by the
awaited outcome of each dispatched `elect` (the oracle list): a ready
`Some(pos)` returns; a ready failure or discard breaks (the writer is
abandoned); a timeout (after discarding) or a lost election falls through
to `if (--retries < 0) break`.  Returns how the loop ended and how many
`elect` attempts were dispatched; `pendingMore` means the oracle list ran
out with the loop still going. -/
def electLoop (retries : Int) : List (AwaitResult (Option Nat)) → ElectLoopOutcome × Nat
| [] => (.pendingMore, 0)
| r :: rest =>
  match r with
  | .ready (some pos) => (.elected pos, 1)
  | .ready none =>
    if retries - 1 < 0 then (.exhausted, 1)
    else
      let (o, n) := electLoop (retries - 1) rest
      (o, n + 1)
  | .timedOut =>
    if retries - 1 < 0 then (.exhausted, 1)
    else
      let (o, n) := electLoop (retries - 1) rest
      (o, n + 1)
  | .failed m => (.abandoned m, 1)
  | .discarded => (.abandoned "Not expecting discarded future", 1)

/-! ## Lemmas: the read walk -/

/-- `specEntries` on a cons: keep the head entry exactly when the head
action is an `APPEND`. -/
lemma specEntries_cons (a : Action) (rest : List Action) :
    specEntries (a :: rest) =
      if a.type_ = ActionType.APPEND then
        Entry.mk a.position a.appendBytes :: specEntries rest
      else specEntries rest := by
  by_cases h : a.type_ = ActionType.APPEND <;>
    simp [specEntries, List.filter_cons, h]

/-- `readLoop` on a cons, with the pending test phrased through `actionOk`. -/
lemma readLoop_cons (pos : Nat) (a : Action) (rest : List Action) :
    readLoop pos (a :: rest) =
      if actionOk a = false then
        .failure "Bad read range (includes pending entries)"
      else if a.position ≠ pos then
        .failure "Bad read range (includes missing entries)"
      else if a.hasType = false then
        .checkFailed
      else
        match readLoop ((pos + 1) % UINT64) rest with
        | .entries es =>
            .entries
              (if a.type_ = ActionType.APPEND then
                Entry.mk a.position a.appendBytes :: es
              else es)
        | r => r := by
  show (if !a.hasPerformed || !a.hasLearned || !a.learned then _ else _) = _
  unfold actionOk
  cases a.hasPerformed <;> cases a.hasLearned <;> cases a.learned <;>
    cases hT : a.hasType <;> simp [hT]

/-- A boolean that is not false is true. -/
lemma bool_true_of_not_false {b : Bool} (h : ¬ b = false) : b = true := by
  cases b
  · exact absurd rfl h
  · rfl

/-- Inversion of a successful walk: the list was valid, every action had a
type, and the entries are the spec's. -/
lemma readLoop_entries_inv :
    ∀ (actions : List Action) (pos : Nat) (es : List Entry),
      readLoop pos actions = .entries es →
      specValid pos actions = true ∧ (∀ a ∈ actions, a.hasType = true) ∧
        es = specEntries actions := by
  intro actions
  induction actions with
  | nil =>
    intro pos es h
    simp only [readLoop] at h
    cases h
    exact ⟨rfl, by simp, by simp [specEntries]⟩
  | cons a rest ih =>
    intro pos es h
    rw [readLoop_cons] at h
    by_cases hok : actionOk a = false
    · rw [if_pos hok] at h; cases h
    rw [if_neg hok] at h
    by_cases hpos : a.position = pos
    · rw [if_neg (by simp [hpos])] at h
      by_cases hT : a.hasType = false
      · rw [if_pos hT] at h; cases h
      rw [if_neg hT] at h
      cases hrec : readLoop ((pos + 1) % UINT64) rest with
      | entries es' =>
        rw [hrec] at h
        simp only [] at h
        obtain ⟨hvalid, htypes, hes⟩ := ih ((pos + 1) % UINT64) es' hrec
        refine ⟨?_, ?_, ?_⟩
        · simp [specValid, hvalid, hpos, bool_true_of_not_false hok]
        · intro x hx
          rcases List.mem_cons.mp hx with hx | hx
          · subst hx; exact bool_true_of_not_false hT
          · exact htypes x hx
        · cases h
          rw [specEntries_cons, hes, hpos]
      | failure m => rw [hrec] at h; cases h
      | checkFailed => rw [hrec] at h; cases h
    · rw [if_pos hpos] at h; cases h

/-- Construction of a successful walk from a valid list whose actions all
carry a type. -/
lemma readLoop_entries_of_valid :
    ∀ (actions : List Action) (pos : Nat),
      specValid pos actions = true → (∀ a ∈ actions, a.hasType = true) →
      readLoop pos actions = .entries (specEntries actions) := by
  intro actions
  induction actions with
  | nil => intro pos _ _; simp [readLoop, specEntries]
  | cons a rest ih =>
    intro pos hvalid htypes
    simp only [specValid, Bool.and_eq_true, beq_iff_eq] at hvalid
    obtain ⟨⟨hok, hpos⟩, hrest⟩ := hvalid
    rw [readLoop_cons, if_neg (by simp [hok]), if_neg (by simp [hpos]),
      if_neg (by simp [htypes a (List.mem_cons_self a rest)]),
      ih ((pos + 1) % UINT64) hrest (fun x hx => htypes x (List.mem_cons_of_mem a hx))]
    rw [specEntries_cons, hpos]

/-- Inversion of a failed walk: the spec walk meets the same first
failure. -/
lemma readLoop_failure_inv :
    ∀ (actions : List Action) (pos : Nat) (m : String),
      readLoop pos actions = .failure m →
      specFailure pos actions = some m := by
  intro actions
  induction actions with
  | nil => intro pos m h; simp only [readLoop] at h; cases h
  | cons a rest ih =>
    intro pos m h
    rw [readLoop_cons] at h
    by_cases hok : actionOk a = false
    · rw [if_pos hok] at h
      cases h
      simp [specFailure, hok]
    rw [if_neg hok] at h
    by_cases hpos : a.position = pos
    · rw [if_neg (by simp [hpos])] at h
      by_cases hT : a.hasType = false
      · rw [if_pos hT] at h; cases h
      rw [if_neg hT] at h
      have hok' : actionOk a = true := bool_true_of_not_false hok
      have hfail : specFailure pos (a :: rest) = specFailure ((pos + 1) % UINT64) rest := by
        simp [specFailure, hok', hpos]
      cases hrec : readLoop ((pos + 1) % UINT64) rest with
      | entries es' => rw [hrec] at h; simp only [] at h; cases h
      | failure m' =>
        rw [hrec] at h
        cases h
        rw [hfail]
        exact ih ((pos + 1) % UINT64) _ hrec
      | checkFailed => rw [hrec] at h; cases h
    · rw [if_pos hpos] at h
      cases h
      simp [specFailure, bool_true_of_not_false hok, hpos]

/-- Construction of a failed walk: the spec walk's first failure is also
the code's, provided every action up to it carries a type. -/
lemma readLoop_failure_of_spec :
    ∀ (actions : List Action) (pos : Nat) (m : String),
      (∀ a ∈ actions, a.hasType = true) →
      specFailure pos actions = some m →
      readLoop pos actions = .failure m := by
  intro actions
  induction actions with
  | nil => intro pos m _ h; simp [specFailure] at h
  | cons a rest ih =>
    intro pos m htypes h
    rw [readLoop_cons]
    by_cases hok : actionOk a = false
    · rw [if_pos hok]
      simp [specFailure, hok] at h
      rw [h]
    rw [if_neg hok]
    have hok' : actionOk a = true := bool_true_of_not_false hok
    by_cases hpos : a.position = pos
    · rw [if_neg (by simp [hpos]),
        if_neg (by simp [htypes a (List.mem_cons_self a rest)])]
      have hfail : specFailure pos (a :: rest) = specFailure ((pos + 1) % UINT64) rest := by
        simp [specFailure, hok', hpos]
      rw [hfail] at h
      rw [ih ((pos + 1) % UINT64) m (fun x hx => htypes x (List.mem_cons_of_mem a hx)) h]
    · rw [if_pos hpos]
      simp [specFailure, hok', hpos] at h
      rw [h]

/-- A walk with no spec failure is valid. -/
lemma specValid_of_specFailure_none :
    ∀ (actions : List Action) (pos : Nat),
      specFailure pos actions = none → specValid pos actions = true := by
  intro actions
  induction actions with
  | nil => intro pos _; rfl
  | cons a rest ih =>
    intro pos h
    by_cases hok : actionOk a = false
    · simp [specFailure, hok] at h
    have hok' : actionOk a = true := bool_true_of_not_false hok
    by_cases hpos : a.position = pos
    · simp only [specFailure, hok', hpos] at h
      simp at h
      simp [specValid, hok', hpos, ih ((pos + 1) % UINT64) h]
    · simp [specFailure, hok', hpos] at h

/-- Every action of a valid walk is visible (`actionOk`). -/
lemma specValid_mem_ok :
    ∀ (actions : List Action) (pos : Nat),
      specValid pos actions = true → ∀ a ∈ actions, actionOk a = true := by
  intro actions
  induction actions with
  | nil => intro pos _ a ha; cases ha
  | cons a rest ih =>
    intro pos h x hx
    simp only [specValid, Bool.and_eq_true] at h
    rcases List.mem_cons.mp hx with hx | hx
    · subst hx; exact h.1.1
    · exact ih ((pos + 1) % UINT64) h.2 x hx

/-- Positions of the entries of a valid, non-wrapping walk lie in
`[pos, pos + length)`. -/
lemma specEntries_position_bounds :
    ∀ (actions : List Action) (pos : Nat),
      specValid pos actions = true → pos + actions.length ≤ UINT64 →
      ∀ e ∈ specEntries actions, pos ≤ e.position ∧ e.position < pos + actions.length := by
  intro actions
  induction actions with
  | nil => intro pos _ _ e he; simp [specEntries] at he
  | cons a rest ih =>
    intro pos hvalid hlen e he
    simp only [specValid, Bool.and_eq_true, beq_iff_eq] at hvalid
    obtain ⟨⟨hok, hpos⟩, hrest⟩ := hvalid
    rw [specEntries_cons] at he
    have hmem : e ∈ specEntries rest →
        pos ≤ e.position ∧ e.position < pos + (a :: rest).length := by
      intro he'
      rcases List.eq_nil_or_concat rest with hnil | _
      · subst hnil; simp [specEntries] at he'
      have hlt : pos + 1 < UINT64 ∨ rest.length = 0 := by
        by_cases h0 : rest.length = 0
        · exact Or.inr h0
        · left
          have : pos + 1 + rest.length ≤ UINT64 := by
            simpa [List.length_cons, Nat.add_comm, Nat.add_left_comm] using hlen
          omega
      rcases hlt with hlt | h0
      · have hmod : (pos + 1) % UINT64 = pos + 1 := Nat.mod_eq_of_lt hlt
        rw [hmod] at hrest
        have := ih (pos + 1) hrest (by simp [List.length_cons] at hlen ⊢; omega) e he'
        simp [List.length_cons]
        omega
      · have : rest = [] := List.length_eq_zero.mp h0
        subst this
        simp [specEntries] at he'
    by_cases hT : a.type_ = ActionType.APPEND
    · rw [if_pos hT] at he
      rcases List.mem_cons.mp he with he | he
      · subst he
        simp [hpos, List.length_cons]
      · exact hmem he
    · rw [if_neg hT] at he
      exact hmem he

/-- Entry positions of a valid, non-wrapping walk are strictly
increasing. -/
lemma specEntries_pairwise :
    ∀ (actions : List Action) (pos : Nat),
      specValid pos actions = true → pos + actions.length ≤ UINT64 →
      (specEntries actions).Pairwise (fun e1 e2 => e1.position < e2.position) := by
  intro actions
  induction actions with
  | nil => intro pos _ _; simp [specEntries]
  | cons a rest ih =>
    intro pos hvalid hlen
    simp only [specValid, Bool.and_eq_true, beq_iff_eq] at hvalid
    obtain ⟨⟨hok, hpos⟩, hrest⟩ := hvalid
    rw [specEntries_cons]
    rcases List.eq_nil_or_concat rest with hnil | _
    · subst hnil
      by_cases hT : a.type_ = ActionType.APPEND <;> simp [hT, specEntries]
    have hcase : pos + 1 < UINT64 ∨ rest.length = 0 := by
      by_cases h0 : rest.length = 0
      · exact Or.inr h0
      · left
        simp [List.length_cons] at hlen
        omega
    rcases hcase with hlt | h0
    swap
    · have : rest = [] := List.length_eq_zero.mp h0
      subst this
      by_cases hT : a.type_ = ActionType.APPEND <;> simp [hT, specEntries]
    have hmod : (pos + 1) % UINT64 = pos + 1 := Nat.mod_eq_of_lt hlt
    rw [hmod] at hrest
    have hlen' : pos + 1 + rest.length ≤ UINT64 := by
      simp [List.length_cons] at hlen; omega
    have htail := ih (pos + 1) hrest hlen'
    by_cases hT : a.type_ = ActionType.APPEND
    · rw [if_pos hT]
      refine List.Pairwise.cons ?_ htail
      intro e' he'
      have := specEntries_position_bounds rest (pos + 1) hrest hlen' e' he'
      simp [hpos]
      omega
    · rw [if_neg hT]
      exact htail

/-! ## Claims C1 and C2 -/

/-- Claim C1: for every successful `read(from, to)`, every entry in the
returned sequence originates from an action whose performed field and
learned field are present and whose learned flag is true (and which is an
`APPEND`-typed action carrying exactly the entry's position and bytes);
an action that is not both performed and learned is never translated into
an `Entry` visible to the reader. -/
theorem C1_read_entries_performed_learned
    (fromPos toPos : Nat) (actions : List Action) (es : List Entry)
    (h : LogReaderProcess.__read fromPos toPos actions = .entries es) :
    ∀ e ∈ es, ∃ a ∈ actions,
      a.hasPerformed = true ∧ a.hasLearned = true ∧ a.learned = true ∧
      a.type_ = ActionType.APPEND ∧
      e.position = a.position ∧ e.data = a.appendBytes := by
  obtain ⟨hvalid, htypes, hes⟩ := readLoop_entries_inv actions fromPos es h
  subst hes
  intro e he
  simp only [specEntries, List.mem_map, List.mem_filter] at he
  obtain ⟨a, ⟨hmem, htype⟩, hea⟩ := he
  have hok := specValid_mem_ok actions fromPos hvalid a hmem
  simp only [actionOk, Bool.and_eq_true] at hok
  refine ⟨a, hmem, hok.1.1, hok.1.2, hok.2, beq_iff_eq.mp htype, ?_, ?_⟩
  · rw [← hea]
  · rw [← hea]

/-- Witness for C1: a concrete successful read with one `APPEND` and one
`NOP` action, checked at the single returned entry. -/
theorem C1_read_entries_performed_learned_witness :
    ∃ a ∈ [Action.mk 5 true true true true ActionType.APPEND "hello",
           Action.mk 6 true true true true ActionType.NOP ""],
      a.hasPerformed = true ∧ a.hasLearned = true ∧ a.learned = true ∧
      a.type_ = ActionType.APPEND ∧
      (Entry.mk 5 "hello").position = a.position ∧
      (Entry.mk 5 "hello").data = a.appendBytes :=
  C1_read_entries_performed_learned 5 6
    [Action.mk 5 true true true true ActionType.APPEND "hello",
     Action.mk 6 true true true true ActionType.NOP ""]
    [Entry.mk 5 "hello"] (by decide) (Entry.mk 5 "hello") (by decide)

/-- Claim C2: for every `read(from, to)` over the contiguous action list
returned by the replica (at most `to - from + 1` actions, `to` a
`uint64_t`, every action typed): walking the list with an expected counter
starting at `from.value`, the read succeeds exactly on a valid list and
then returns exactly the `APPEND`-typed actions as entries (NOP and
TRUNCATE filtered out); it fails with "Bad read range (includes pending
entries)" when the walk first meets an action missing `performed` or
`learned` or not learned, and with "Bad read range (includes missing
entries)" when it first meets an action off the expected counter; on
success the entry positions are strictly increasing and contained in
`[from.value, to.value]`. -/
theorem C2_read_range_validation
    (fromPos toPos : Nat) (actions : List Action)
    (htype : ∀ a ∈ actions, a.hasType = true)
    (hto : toPos < UINT64)
    (hlen : fromPos + actions.length ≤ toPos + 1) :
    (∀ es, LogReaderProcess.__read fromPos toPos actions = .entries es ↔
      (specValid fromPos actions = true ∧ es = specEntries actions)) ∧
    (∀ m, LogReaderProcess.__read fromPos toPos actions = .failure m ↔
      specFailure fromPos actions = some m) ∧
    (specValid fromPos actions = true →
      (specEntries actions).Pairwise (fun e1 e2 => e1.position < e2.position) ∧
      ∀ e ∈ specEntries actions, fromPos ≤ e.position ∧ e.position ≤ toPos) := by
  have hlen' : fromPos + actions.length ≤ UINT64 := by omega
  refine ⟨?_, ?_, ?_⟩
  · intro es
    constructor
    · intro h
      obtain ⟨hv, _, he⟩ := readLoop_entries_inv actions fromPos es h
      exact ⟨hv, he⟩
    · rintro ⟨hv, rfl⟩
      exact readLoop_entries_of_valid actions fromPos hv htype
  · intro m
    constructor
    · exact readLoop_failure_inv actions fromPos m
    · exact readLoop_failure_of_spec actions fromPos m htype
  · intro hv
    refine ⟨specEntries_pairwise actions fromPos hv hlen', ?_⟩
    intro e he
    have := specEntries_position_bounds actions fromPos hv hlen' e he
    omega

/-- Witness for C2: a concrete two-action list at range `[1, 2]`, read
successfully with the `NOP` filtered out. -/
theorem C2_read_range_validation_witness :
    LogReaderProcess.__read 1 2
      [Action.mk 1 true true true true ActionType.APPEND "x",
       Action.mk 2 true true true true ActionType.NOP "y"] =
      .entries [Entry.mk 1 "x"] := by
  have h := C2_read_range_validation 1 2
    [Action.mk 1 true true true true ActionType.APPEND "x",
     Action.mk 2 true true true true ActionType.NOP "y"]
    (by decide) (by decide) (by decide)
  exact (h.1 [Entry.mk 1 "x"]).mpr ⟨by decide, by decide⟩

/-! ## Claims C3 and C4: writer poisoning and elections -/

/-- `append` and `truncate` share one guard structure: no coordinator
fails at once, a stored error fails at once, otherwise the coordinator is
contacted and a failure is stored. -/
lemma write_spec (s : LogWriterProcess.State) (op : WriteOp) (r : CoordResult) :
    LogWriterProcess.write s op r =
      match s.coordinator with
      | none => (.fail "No election has been performed", s, false)
      | some _ =>
        match s.error with
        | some e => (.fail e, s, false)
        | none =>
          match r with
          | .success v => (.ok v, s, true)
          | .failure m => (.fail m, LogWriterProcess.failed s m, true) := by
  cases op <;> rfl

/-- Claim C3: after any failed append or truncate, every subsequent append
or truncate on that writer without an intervening elect returns an error —
"No election has been performed" when no coordinator exists, or the stored
failure message when the writer is poisoned — and the coordinator is not
contacted by the subsequent call. -/
theorem C3_writer_poisoned_after_failure
    (s : LogWriterProcess.State) (op1 op2 : WriteOp) (r1 r2 : CoordResult)
    (m1 : String)
    (h1 : (LogWriterProcess.write s op1 r1).1 = .fail m1) :
    (∃ m, (LogWriterProcess.write (LogWriterProcess.write s op1 r1).2.1 op2 r2).1 =
        .fail m ∧
      (((LogWriterProcess.write s op1 r1).2.1.coordinator = none ∧
          m = "No election has been performed") ∨
        (LogWriterProcess.write s op1 r1).2.1.error = some m)) ∧
    (LogWriterProcess.write (LogWriterProcess.write s op1 r1).2.1 op2 r2).2.2 = false := by
  rcases hc : s.coordinator with _ | c
  · refine ⟨⟨"No election has been performed", ?_, Or.inl ⟨?_, rfl⟩⟩, ?_⟩ <;>
      simp [write_spec, hc]
  · rcases he : s.error with _ | e
    · rcases r1 with v | m
      · rw [write_spec, hc, he] at h1
        cases h1
      · refine ⟨⟨m, ?_, Or.inr ?_⟩, ?_⟩ <;>
          simp [write_spec, hc, he, LogWriterProcess.failed]
    · refine ⟨⟨e, ?_, Or.inr ?_⟩, ?_⟩ <;>
        simp [write_spec, hc, he]

/-- Witness for C3: a writer whose coordinator append fails with "boom";
the following truncate fails with the stored "boom" without contacting the
coordinator. -/
theorem C3_writer_poisoned_after_failure_witness :
    (∃ m, (LogWriterProcess.write
        (LogWriterProcess.write
          ⟨3, 7, FutureState.ready 11, [], some ⟨3, 11, 7⟩, none⟩
          (WriteOp.append "a") (CoordResult.failure "boom")).2.1
        (WriteOp.truncate 5) (CoordResult.success 9)).1 = .fail m ∧
      (((LogWriterProcess.write
          ⟨3, 7, FutureState.ready 11, [], some ⟨3, 11, 7⟩, none⟩
          (WriteOp.append "a") (CoordResult.failure "boom")).2.1.coordinator = none ∧
          m = "No election has been performed") ∨
        (LogWriterProcess.write
          ⟨3, 7, FutureState.ready 11, [], some ⟨3, 11, 7⟩, none⟩
          (WriteOp.append "a") (CoordResult.failure "boom")).2.1.error = some m)) ∧
    (LogWriterProcess.write
      (LogWriterProcess.write
        ⟨3, 7, FutureState.ready 11, [], some ⟨3, 11, 7⟩, none⟩
        (WriteOp.append "a") (CoordResult.failure "boom")).2.1
      (WriteOp.truncate 5) (CoordResult.success 9)).2.2 = false :=
  C3_writer_poisoned_after_failure
    ⟨3, 7, FutureState.ready 11, [], some ⟨3, 11, 7⟩, none⟩
    (WriteOp.append "a") (WriteOp.truncate 5)
    (CoordResult.failure "boom") (CoordResult.success 9) "boom" rfl

/-- Claim C4: every `elect` after the recovery gate opens first tears down
the existing coordinator and clears the stored error, then builds a fresh
`Coordinator(quorum, replica, network)`; a won election yields
`Some(Position(v))`, a lost one `None`, and a coordinator failure stores
the message in `error` and fails the future.  Consequently a second
back-to-back elect behaves exactly as from a writer with no coordinator
and no error. -/
theorem C4_elect_fresh_coordinator
    (s : LogWriterProcess.State) (replica : Nat) (resp : ElectResult)
    (hready : s.recovering = .ready replica) :
    LogWriterProcess.elect s resp = LogWriterProcess._elect s resp ∧
    (LogWriterProcess._elect s resp).2.coordinator =
      some ⟨s.quorum, replica, s.network⟩ ∧
    (∀ v, resp = .won v → LogWriterProcess._elect s resp =
      (.ok (some v),
       { s with coordinator := some ⟨s.quorum, replica, s.network⟩, error := none })) ∧
    (resp = .lost → LogWriterProcess._elect s resp =
      (.ok none,
       { s with coordinator := some ⟨s.quorum, replica, s.network⟩, error := none })) ∧
    (∀ m, resp = .failure m → LogWriterProcess._elect s resp =
      (.electFailed m,
       { s with coordinator := some ⟨s.quorum, replica, s.network⟩,
                error := some m })) ∧
    (∀ resp2, LogWriterProcess._elect (LogWriterProcess._elect s resp).2 resp2 =
      LogWriterProcess._elect { s with coordinator := none, error := none } resp2) := by
  refine ⟨?_, ?_, ?_, ?_, ?_, ?_⟩
  · rw [LogWriterProcess.elect, LogWriterProcess.recover, hready]
  · rcases resp with v | _ | m <;>
      simp [LogWriterProcess._elect, hready, LogWriterProcess.failed]
  · intro v hv
    subst hv
    simp [LogWriterProcess._elect, hready, LogWriterProcess.__elect]
  · intro hv
    subst hv
    simp [LogWriterProcess._elect, hready, LogWriterProcess.__elect]
  · intro m hm
    subst hm
    simp [LogWriterProcess._elect, hready, LogWriterProcess.failed]
  · intro resp2
    rcases resp with v | _ | m <;> rcases resp2 with v2 | _ | m2 <;>
      simp [LogWriterProcess._elect, hready, LogWriterProcess.failed,
        LogWriterProcess.__elect]

/-- Witness for C4: a writer with an old coordinator and a stale error;
after a lost election the coordinator is fresh and the error cleared. -/
theorem C4_elect_fresh_coordinator_witness :
    LogWriterProcess._elect
      ⟨2, 7, FutureState.ready 42, [], some ⟨9, 9, 9⟩, some "old"⟩
      ElectResult.lost =
      (.ok none,
       { quorum := 2, network := 7, recovering := FutureState.ready 42,
         promises := [], coordinator := some ⟨2, 42, 7⟩, error := none }) :=
  (C4_elect_fresh_coordinator
    ⟨2, 7, FutureState.ready 42, [], some ⟨9, 9, 9⟩, some "old"⟩
    42 ElectResult.lost rfl).2.2.2.1 rfl

/-! ## Claims C5, C6 and C7: recovery gating and shutdown -/

/-- Claim C5: `LogProcess::recover` is idempotent and terminal after
completion: once recovery has failed every call returns the stored
failure immediately and unchanged state; once it has succeeded every call
returns the shared replica immediately and unchanged state; and a
recovery already in flight is never restarted, so all callers share the
single underlying recovery. -/
theorem C5_recover_idempotent_terminal (s : LogProcess.State) :
    (∀ m, s.recoveredF = .failed m → LogProcess.recover s = (.failure m, s)) ∧
    (∀ u, s.recoveredF = .ready u → LogProcess.recover s = (.replica s.replica, s)) ∧
    (s.recovering.isSome = true → (LogProcess.recover s).2.recovering = s.recovering) := by
  refine ⟨?_, ?_, ?_⟩
  · intro m hm
    rw [LogProcess.recover, hm]
  · intro u hu
    rw [LogProcess.recover, hu]
  · intro hsome
    rcases hf : s.recoveredF with _ | u | m
    · have hne : ¬ s.recovering = none := by
        intro hnone
        rw [hnone] at hsome
        cases hsome
      simp [LogProcess.recover, hf, hne]
    · simp [LogProcess.recover, hf]
    · simp [LogProcess.recover, hf]
    · simp [LogProcess.recover, hf]

/-- Witness for C5: recovery already failed with "unrecoverable"; a later
call returns the stored failure with the state untouched. -/
theorem C5_recover_idempotent_terminal_witness :
    LogProcess.recover ⟨3, 8, FutureState.failed "unrecoverable", some (.failed "unrecoverable"), []⟩ =
      (.failure "unrecoverable",
       ⟨3, 8, FutureState.failed "unrecoverable", some (.failed "unrecoverable"), []⟩) :=
  (C5_recover_idempotent_terminal
    ⟨3, 8, FutureState.failed "unrecoverable", some (.failed "unrecoverable"), []⟩).1
    "unrecoverable" rfl

/-- Claim C6: when recovery completes, every enqueued promise is settled
and the queue is emptied: on success each promise is fulfilled with the
shared replica and the one-shot recovered signal is set; on failure or
discard the recovered signal and every promise are failed with one and
the same message.  No enqueued promise is left pending. -/
theorem C6_recovery_completion_settles_all
    (s : LogProcess.State) (fut : FutureState Nat) :
    (LogProcess._recover s fut).1.promises = [] ∧
    (LogProcess._recover s fut).2.length = s.promises.length ∧
    (∀ r, fut = .ready r →
      (LogProcess._recover s fut).1.recoveredF = .ready () ∧
      (LogProcess._recover s fut).1.replica = r ∧
      ∀ out ∈ (LogProcess._recover s fut).2, out = .fulfilled r) ∧
    (∀ m, fut = .failed m →
      (LogProcess._recover s fut).1.recoveredF = .failed m ∧
      ∀ out ∈ (LogProcess._recover s fut).2, out = .failedWith m) ∧
    (fut = .discarded →
      ∃ m, (LogProcess._recover s fut).1.recoveredF = .failed m ∧
        ∀ out ∈ (LogProcess._recover s fut).2, out = .failedWith m) := by
  refine ⟨?_, ?_, ?_, ?_, ?_⟩
  · cases fut <;> rfl
  · cases fut <;> simp [LogProcess._recover]
  · intro r hr
    subst hr
    refine ⟨rfl, rfl, ?_⟩
    intro out hout
    simp [LogProcess._recover] at hout
    exact hout.2
  · intro m hm
    subst hm
    refine ⟨rfl, ?_⟩
    intro out hout
    simp [LogProcess._recover] at hout
    exact hout.2
  · intro hd
    subst hd
    refine ⟨"The future 'recovering' is unexpectedly discarded", rfl, ?_⟩
    intro out hout
    simp [LogProcess._recover] at hout
    exact hout.2

/-- Witness for C6: two queued promises and a failed recovery; both are
failed with the recovery's message and the queue is cleared. -/
theorem C6_recovery_completion_settles_all_witness :
    (LogProcess._recover ⟨3, 8, FutureState.pending, some .pending, [(), ()]⟩
        (FutureState.failed "quorum lost")).1.recoveredF =
      FutureState.failed "quorum lost" ∧
    ∀ out ∈ (LogProcess._recover ⟨3, 8, FutureState.pending, some .pending, [(), ()]⟩
        (FutureState.failed "quorum lost")).2,
      out = Settlement.failedWith "quorum lost" :=
  (C6_recovery_completion_settles_all
    ⟨3, 8, FutureState.pending, some .pending, [(), ()]⟩
    (FutureState.failed "quorum lost")).2.2.2.1 "quorum lost" rfl

/-- Claim C7: on finalize of the log, reader and writer actors, every
promise still pending in the recovery-gate queue is failed with the
corresponding deletion message and the queue is cleared, so no gated
operation's promise remains pending after finalize. -/
theorem C7_finalize_fails_pending_promises
    (ls : LogProcess.State) (rs : LogReaderProcess.State)
    (ws : LogWriterProcess.State) :
    ((LogProcess.finalize ls).1.promises = [] ∧
     (LogProcess.finalize ls).2 =
       ls.promises.map (fun _ => .failedWith "Log is being deleted")) ∧
    ((LogReaderProcess.finalize rs).1.promises = [] ∧
     (LogReaderProcess.finalize rs).2 =
       rs.promises.map (fun _ => .failedWith "Log reader is being deleted")) ∧
    ((LogWriterProcess.finalize ws).1.promises = [] ∧
     (LogWriterProcess.finalize ws).2 =
       ws.promises.map (fun _ => .failedWith "Log writer is being deleted")) :=
  ⟨⟨rfl, rfl⟩, ⟨rfl, rfl⟩, ⟨rfl, rfl⟩⟩

/-! ## Claim C8: the client façade's await-with-timeout pattern -/

/-- Claim C8: for `Reader::read`, `Writer::append` and `Writer::truncate`,
a future not settled within the timeout is discarded and the call returns
the none / timed-out sentinel; a future settled as a failure (or discard)
yields an error result carrying the failure message; a ready future
yields ok with the entries or position. -/
theorem C8_facade_timeout_pattern :
    (Log.Reader.read .timedOut = (.none, true) ∧
     (∀ es, Log.Reader.read (.ready es) = (.ok es, false)) ∧
     (∀ m, Log.Reader.read (.failed m) = (.error m, false)) ∧
     Log.Reader.read .discarded =
       (.error "Not expecting discarded future", false)) ∧
    (Log.Writer.append .timedOut = (.none, true) ∧
     (∀ p, Log.Writer.append (.ready p) = (.ok p, false)) ∧
     (∀ m, Log.Writer.append (.failed m) = (.error m, false)) ∧
     Log.Writer.append .discarded =
       (.error "Not expecting discarded future", false)) ∧
    (Log.Writer.truncate .timedOut = (.none, true) ∧
     (∀ p, Log.Writer.truncate (.ready p) = (.ok p, false)) ∧
     (∀ m, Log.Writer.truncate (.failed m) = (.error m, false)) ∧
     Log.Writer.truncate .discarded =
       (.error "Not expecting discarded future", false)) :=
  ⟨⟨rfl, fun _ => rfl, fun _ => rfl, rfl⟩,
   ⟨rfl, fun _ => rfl, fun _ => rfl, rfl⟩,
   ⟨rfl, fun _ => rfl, fun _ => rfl, rfl⟩⟩

/-! ## Claim C9: the constructor's election retry loop -/

/-- The loop dispatches at most `retries + 1` elections. -/
lemma electLoop_count_le :
    ∀ (oracle : List (AwaitResult (Option Nat))) (r : Nat),
      (electLoop (r : Int) oracle).2 ≤ r + 1 := by
  intro oracle
  induction oracle with
  | nil => intro r; simp [electLoop]
  | cons x rest ih =>
    intro r
    rcases x with _ | a | m | _
    · by_cases h : (r : Int) - 1 < 0
      · simp [electLoop, h]
      · have hr : 1 ≤ r := by omega
        have hcast : ((r : Int) - 1) = ((r - 1 : Nat) : Int) := by omega
        have h2 : ¬ (((r - 1 : Nat) : Int) < 0) := by omega
        rcases h' : electLoop ((r - 1 : Nat) : Int) rest with ⟨o, n⟩
        have hn : n ≤ (r - 1) + 1 := by
          have := ih (r - 1)
          rw [h'] at this
          exact this
        simp [electLoop, hcast, h2, h']
        omega
    · rcases a with _ | pos
      · by_cases h : (r : Int) - 1 < 0
        · simp [electLoop, h]
        · have hr : 1 ≤ r := by omega
          have hcast : ((r : Int) - 1) = ((r - 1 : Nat) : Int) := by omega
          have h2 : ¬ (((r - 1 : Nat) : Int) < 0) := by omega
          rcases h' : electLoop ((r - 1 : Nat) : Int) rest with ⟨o, n⟩
          have hn : n ≤ (r - 1) + 1 := by
            have := ih (r - 1)
            rw [h'] at this
            exact this
          simp [electLoop, hcast, h2, h']
          omega
      · simp [electLoop]
    · simp [electLoop]
    · simp [electLoop]

/-- Claim C9: the constructor's election loop terminates: a ready
`Some(pos)` returns at once; a ready failure (or discard) stops it
permanently; a timeout or lost election decrements retries and loops,
stopping once retries falls below zero — so with initial retries `r ≥ 0`
at most `r + 1` elect attempts are dispatched. -/
theorem C9_writer_constructor_election_loop
    (r : Nat) (oracle : List (AwaitResult (Option Nat))) :
    (electLoop (r : Int) oracle).2 ≤ r + 1 ∧
    (∀ pos rest, oracle = .ready (some pos) :: rest →
      electLoop (r : Int) oracle = (.elected pos, 1)) ∧
    (∀ m rest, oracle = .failed m :: rest →
      electLoop (r : Int) oracle = (.abandoned m, 1)) ∧
    (∀ x rest, (x = AwaitResult.timedOut ∨ x = AwaitResult.ready none) →
      oracle = x :: rest →
      (r = 0 → electLoop (r : Int) oracle = (.exhausted, 1)) ∧
      (0 < r → electLoop (r : Int) oracle =
        ((electLoop ((r - 1 : Nat) : Int) rest).1,
         (electLoop ((r - 1 : Nat) : Int) rest).2 + 1))) := by
  refine ⟨electLoop_count_le oracle r, ?_, ?_, ?_⟩
  · intro pos rest h
    subst h
    rfl
  · intro m rest h
    subst h
    rfl
  · intro x rest hx h
    subst h
    constructor
    · intro hr
      subst hr
      rcases hx with hx | hx <;> subst hx <;> simp [electLoop]
    · intro hr
      have hcast : ((r : Int) - 1) = ((r - 1 : Nat) : Int) := by omega
      have h2 : ¬ (((r - 1 : Nat) : Int) < 0) := by omega
      rcases h' : electLoop ((r - 1 : Nat) : Int) rest with ⟨o, n⟩
      rcases hx with hx | hx <;> subst hx <;>
        simp [electLoop, hcast, h2, h']

/-- Witness for C9: one lost election followed by a win, with one retry:
two dispatches, elected at position 4, within the `r + 1` bound. -/
theorem C9_writer_constructor_election_loop_witness :
    (electLoop ((1 : Nat) : Int)
        [AwaitResult.ready (Option.some 4)]).2 ≤ 2 ∧
    electLoop ((1 : Nat) : Int) [AwaitResult.ready (Option.some 4)] =
      (.elected 4, 1) :=
  ⟨(C9_writer_constructor_election_loop 1 [AwaitResult.ready (Option.some 4)]).1,
   (C9_writer_constructor_election_loop 1
      [AwaitResult.ready (Option.some 4)]).2.1 4 [] rfl⟩

/-! ## Claim C10: append/truncate never await the recovery gate -/

/-- Claim C10: `append` and `truncate` never await the recovery gate:
while recovery is still pending and no elect has completed (no
coordinator), they fail immediately with "No election has been performed"
without contacting anything, whereas `elect` on the same state blocks on
the gate (its promise is enqueued). -/
theorem C10_writes_skip_recovery_gate
    (s : LogWriterProcess.State) (bytes : String) (toPos : Nat)
    (r1 r2 : CoordResult) (resp : ElectResult)
    (hpend : s.recovering = .pending) (hco : s.coordinator = none) :
    LogWriterProcess.append s bytes r1 =
      (.fail "No election has been performed", s, false) ∧
    LogWriterProcess.truncate s toPos r2 =
      (.fail "No election has been performed", s, false) ∧
    (LogWriterProcess.elect s resp).1 = .gated ∧
    (LogWriterProcess.elect s resp).2.promises = s.promises ++ [()] := by
  refine ⟨?_, ?_, ?_, ?_⟩
  · rw [LogWriterProcess.append.eq_def, hco]
  · rw [LogWriterProcess.truncate.eq_def, hco]
  · rw [LogWriterProcess.elect, LogWriterProcess.recover, hpend]
  · rw [LogWriterProcess.elect, LogWriterProcess.recover, hpend]

/-- Witness for C10: a fresh writer (pending recovery, no coordinator):
the append fails at once while the elect is gated. -/
theorem C10_writes_skip_recovery_gate_witness :
    LogWriterProcess.append ⟨3, 7, FutureState.pending, [], none, none⟩ "data"
        (CoordResult.success 1) =
      (.fail "No election has been performed",
       ⟨3, 7, FutureState.pending, [], none, none⟩, false) ∧
    (LogWriterProcess.elect ⟨3, 7, FutureState.pending, [], none, none⟩
        (ElectResult.won 1)).1 = .gated :=
  ⟨(C10_writes_skip_recovery_gate ⟨3, 7, FutureState.pending, [], none, none⟩
      "data" 0 (CoordResult.success 1) (CoordResult.success 1)
      (ElectResult.won 1) rfl rfl).1,
   (C10_writes_skip_recovery_gate ⟨3, 7, FutureState.pending, [], none, none⟩
      "data" 0 (CoordResult.success 1) (CoordResult.success 1)
      (ElectResult.won 1) rfl rfl).2.2.1⟩

end MesosLog
